import Mathlib

/-!
# Number server: a shallow embedding of `main.go`

The server reads fixed-width frames from TCP connections, keeps a set of the
payloads it has seen (`duplicateNums`), and maintains three `int32` counters.

Conventions of the embedding.

* A Go `[]byte` / `string` is a `List Nat` of byte values.  Every function below
  is total on `List Nat`; real inputs are the lists whose entries are `< 256`.
* `map[string]struct{}` is a finite set of keys, `Finset (List Nat)`.
* `counter` is `int32`: an `Int` that `inc` wraps into `[-2^31, 2^31)`.
* `chan interface{}` that is only ever closed is a `Bool` (closed or not);
  closing a closed channel panics.
* A panic of any goroutine ends the Go process; the field `panicked` records it
  and keeps the state in which the panic happened.
* The goroutines are interleaved at the granularity of one loop iteration of
  `handleConnections` (or of one completed `Read`), one `createReport`, one
  `Accept`.  Finer interleavings (the unlocked check-then-insert on the map) are
  outside the model, and so are the connection cap of the listener, the
  period of the reporter and the text of the log file.
-/

namespace NumberServer

/-- Byte values of an ASCII string literal. -/
def ascii (s : String) : List Nat := s.data.map Char.toNat

/-! ## `type counter int32` -/

/-- Two's-complement wrap-around of a 32-bit signed integer. -/
def wrapInt32 (x : Int) : Int := (x + 2147483648) % 4294967296 - 2147483648

/-- Go `func (c *counter) inc()`: `atomic.AddInt32(c, 1)`; the value of a `counter`
is an `Int` in `[-2^31, 2^31)`. -/
def counter.inc (c : Int) : Int := wrapInt32 (c + 1)

/-- Go `func (c *counter) get() int32`: `atomic.LoadInt32(c)`. -/
def counter.get (c : Int) : Int := c

/-- Go `func (c *counter) reset()`: `atomic.SwapInt32(c, 0)`. -/
def counter.reset (_c : Int) : Int := 0

/-! ## `type Server struct` -/

/-- The `Server` struct, together with the process-level effects of its methods. -/
structure Server where
  /-- Go `duplicateNums map[string]struct{}`: the keys present in the map. -/
  duplicateNums : Finset (List Nat)
  /-- Go `new counter`. -/
  new : Int
  /-- Go `duplicates counter`. -/
  duplicates : Int
  /-- Go `total counter`. -/
  total : Int
  /-- Go `quit chan interface{}`: `true` once the channel has been closed. -/
  quit : Bool
  /-- Go `wg sync.WaitGroup`: its counter. -/
  wg : Int
  /-- Go `l net.Listener`: `true` once the listener has been closed. -/
  lClosed : Bool
  /-- Number of `stop()` calls blocked in `s.wg.Wait()`. -/
  waiting : Nat
  /-- Lines handed to `logger.Logf`, oldest first. -/
  logged : List (List Nat)
  /-- A goroutine has panicked (the process is gone). -/
  panicked : Bool
deriving DecidableEq

/-- Go `NewServer()`, in the case where `Listen` succeeds (otherwise `log.Fatal`). -/
def NewServer : Server :=
  { duplicateNums := ∅, new := 0, duplicates := 0, total := 0, quit := false,
    wg := 0, lClosed := false, waiting := 0, logged := [], panicked := false }

/-- Go `s.wg.Add(1)`. -/
def Server.wgAdd (s : Server) : Server := { s with wg := s.wg + 1 }

/-- Go `s.wg.Done()`: decrements the counter; a negative counter panics; when the
counter reaches zero the goroutines blocked in `s.wg.Wait()` (all of them inside
`stop`) resume and run the rest of `stop`, which is `s.l.Close()`. -/
def Server.wgDone (s : Server) : Server :=
  if s.wg - 1 < 0 then { s with wg := s.wg - 1, panicked := true }
  else if s.wg - 1 = 0 ∧ 0 < s.waiting then
    { s with wg := s.wg - 1, waiting := 0, lClosed := true }
  else { s with wg := s.wg - 1 }

/-- Go `func (s *Server) stop()`: `close(s.quit)` (panics when already closed), then
`s.wg.Wait()` (blocks while the counter is not zero), then `s.l.Close()`. -/
def Server.stop (s : Server) : Server :=
  if s.quit then { s with panicked := true }
  else if s.wg = 0 then { s with quit := true, lClosed := true }
  else { s with quit := true, waiting := s.waiting + 1 }

/-- Where the goroutine of a session is after a step. -/
inductive Status
  /-- The `for` loop goes on to its next iteration. -/
  | looping
  /-- The goroutine is inside `s.stop()`, blocked in `s.wg.Wait()`; it goes on
  (`s.l.Close()`, then the `return` of `handleConnections`) when a `s.wg.Done()`
  brings the counter to zero. -/
  | inStop
  /-- The function `handleConnections` has returned. -/
  | returned
  /-- The goroutine has panicked (in `s.wg.Done()` or in `close(s.quit)`). -/
  | panicked
deriving DecidableEq

/-- How a call of `s.stop()` ends for the goroutine that makes it: it panics on
a closed channel, it comes back at once when the counter of the WaitGroup is
zero, otherwise it stays blocked in `s.wg.Wait()`. -/
def Server.stopStatus (s : Server) : Status :=
  if s.quit then .panicked
  else if s.wg = 0 then .returned
  else .inStop

/-! ## Validation -/

/-- Go `func checkForTerminate(buffer []byte) bool`. -/
def checkForTerminate (buffer : List Nat) : Bool := buffer == ascii "terminate"

/-- The `for i := range r` loop of `checkForCharacters`, with the local `sep`. -/
def checkForCharacters.loop : List Nat → Nat → Bool
  | [], _ => true
  | b :: rest, sep =>
    if b ≥ 48 && b ≤ 57 then checkForCharacters.loop rest sep
    else if b == 46 then
      if sep > 0 then false else checkForCharacters.loop rest (sep + 1)
    else false

/-- Go `func checkForCharacters(r []byte) bool`. -/
def checkForCharacters (r : List Nat) : Bool := checkForCharacters.loop r 0

/-- Go `strings.TrimLeft(s, cutset)` for ASCII arguments: drops the leading bytes of
`s` that occur in `cutset`. -/
def TrimLeft (s cutset : List Nat) : List Nat := s.dropWhile (fun b => cutset.contains b)

/-! ## Connections -/

/-- What the server can do to a `net.Conn`, and what the peer sees of it. -/
structure Conn where
  /-- The call `c.Close()` has been made. -/
  closed : Bool
  /-- The arguments of the `c.Write` calls, oldest first. -/
  written : List (List Nat)
deriving DecidableEq

/-- A freshly accepted connection. -/
def Conn.fresh : Conn := { closed := false, written := [] }

/-- Go `c.Close()`. -/
def Conn.Close (c : Conn) : Conn := { c with closed := true }

/-- Go `c.Write(b)`. -/
def Conn.Write (c : Conn) (b : List Nat) : Conn := { c with written := c.written ++ [b] }

/-- Result of `c.Read(buffer)` on the 10-byte buffer. -/
inductive ReadResult
  /-- The case `err != nil` (end of stream or I/O error). -/
  | err
  /-- The case `err == nil`; `data` are the bytes now in `buffer[:n]`, `n = data.length`. -/
  | ok (data : List Nat)
deriving DecidableEq

/-- State after (part of) a run of `handleConnections`. -/
structure Step where
  server : Server
  conn : Conn
  /-- Where the goroutine of the session is. -/
  status : Status
deriving DecidableEq

/-- The two statements `s.wg.Done(); return` that end `handleConnections`; the
goroutine returns unless `s.wg.Done()` panics. -/
def doneAndReturn (s : Server) (c : Conn) : Step :=
  let s1 := s.wgDone
  ⟨s1, c, if s1.panicked then .panicked else .returned⟩

/-- The `default:` branch of the `select` in `handleConnections` (lines 126-177),
given the result of the `Read`.  Only a read of 10 bytes gets past the length
check, so the buffer holds exactly the bytes of that read when it is inspected.
On `"terminate"` the goroutine calls `s.stop()` before its `return`: it has
returned only if that call comes back. -/
def handleRead (s : Server) (c : Conn) (r : ReadResult) : Step :=
  match r with
  | .err => doneAndReturn s c.Close
  | .ok buffer =>
    let readBuffer := buffer.length
    if readBuffer ≠ 10 then doneAndReturn s c.Close
    else
      let currNum := buffer.take (readBuffer - 1)
      if !checkForCharacters currNum then
        if checkForTerminate currNum then
          let c1 := c.Close
          let s1 := s.wgDone
          if s1.panicked then ⟨s1, c1, .panicked⟩
          else ⟨s1.stop, c1, s1.stopStatus⟩
        else doneAndReturn s c.Close
      else
        let currWord := buffer.take (buffer.length - 1)
        if currWord ∉ s.duplicateNums then
          let s1 := { s with duplicateNums := insert currWord s.duplicateNums }
          let trimmedString := TrimLeft currWord (ascii "0")
          let s2 := { s1 with logged := s1.logged ++ [trimmedString ++ ascii "\n"] }
          let c1 := c.Write (ascii "message received: " ++ trimmedString ++ ascii "\n")
          let s3 := { s2 with new := counter.inc s2.new }
          ⟨{ s3 with total := counter.inc s3.total }, c1, .looping⟩
        else
          ⟨{ s with duplicates := counter.inc s.duplicates }, c, .looping⟩

/-- One iteration of the `for` loop of `handleConnections`: the `select` takes
the `<-s.quit` case exactly when the channel is closed. -/
def iteration (s : Server) (c : Conn) (r : ReadResult) : Step :=
  if s.quit then doneAndReturn s c else handleRead s c r

/-- Go `func (s *Server) handleConnections(c net.Conn)` run by itself on the reads
`rs` that the connection delivers; when they are used up the session is blocked
in `c.Read` (still in its loop) unless the `select` sees the closed channel. -/
def handleConnections (s : Server) (c : Conn) : List ReadResult → Step
  | [] => if s.quit then doneAndReturn s c else ⟨s, c, .looping⟩
  | r :: rs =>
    let st := iteration s c r
    if st.status = .looping then handleConnections st.server st.conn rs else st

/-- What one call of `createReport` prints. -/
structure Report where
  new : Int
  duplicates : Int
  total : Int
deriving DecidableEq

/-- Go `func (s *Server) createReport()`: the three printed values and the server
after the two resets. -/
def createReport (s : Server) : Report × Server :=
  let r : Report := ⟨counter.get s.new, counter.get s.duplicates, counter.get s.total⟩
  let s1 := { s with new := counter.reset s.new }
  (r, { s1 with duplicates := counter.reset s1.duplicates })

/-! ## Sequential executions -/

/-- One `Accept` of the loop of `run`: on a closed listener `Accept` fails (and
`run` returns, the channel being closed); otherwise `s.wg.Add(1)` and a session
is spawned. -/
def Server.accept (s : Server) : Server := if s.lClosed then s else s.wgAdd

/-- The moves of the goroutines that touch the server. -/
inductive Event
  /-- The acceptor accepts a connection. -/
  | accept
  /-- A session on connection `c` runs one loop iteration, its `Read` giving `r`. -/
  | loop (c : Conn) (r : ReadResult)
  /-- A session that went past the `select` earlier gets `r` from its `Read`. -/
  | read (c : Conn) (r : ReadResult)
  /-- The reporter ticks. -/
  | tick
  /-- The method `stop()` is called from outside the sessions (as the tests do). -/
  | stop

/-- Effect of one event on the server. -/
def Server.step (s : Server) : Event → Server
  | .accept => s.accept
  | .loop c r => (iteration s c r).server
  | .read c r => (handleRead s c r).server
  | .tick => (createReport s).2
  | .stop => s.stop

/-- Sequential execution of a list of events. -/
def exec (s : Server) (evs : List Event) : Server := evs.foldl Server.step s

/-- The same frame is processed once on each of the connections `cs`, in order
(the entries of `cs` are the states of the connections at those moments; the
same connection may occur several times). -/
def submit (s : Server) (frame : List Nat) (cs : List Conn) : Server :=
  cs.foldl (fun s c => (iteration s c (.ok frame)).server) s

/-- What holds of the server between any two events. -/
structure Inv (s : Server) : Prop where
  keys : ∀ k ∈ s.duplicateNums, k.length = 9 ∧ checkForCharacters k = true
  total_eq : (s.total : Int) = (s.duplicateNums.card : Int)
  new_nonneg : (0 : Int) ≤ s.new
  new_le : (s.new : Int) ≤ s.total
  dup_lo : (-2147483648 : Int) ≤ s.duplicates
  dup_hi : (s.duplicates : Int) ≤ 2147483647

/-- The server states that a freshly created server reaches by a sequential
execution of events. -/
def Reachable (s : Server) : Prop := ∃ evs : List Event, s = exec NewServer evs

/-! ## Counting the valid keys -/

/-- All strings of `n` ASCII digits. -/
def digitStrings : Nat → Finset (List Nat)
  | 0 => {[]}
  | n + 1 => (Finset.Icc 48 57 ×ˢ digitStrings n).image (fun p => p.1 :: p.2)

/-- All strings of length `n` made of ASCII digits and at most one `'.'`. -/
def validStrings : Nat → Finset (List Nat)
  | 0 => {[]}
  | n + 1 => (Finset.Icc 48 57 ×ˢ validStrings n).image (fun p => p.1 :: p.2)
      ∪ (digitStrings n).image (fun t => 46 :: t)

/-- An upper bound for the number of elements of `validStrings n`. -/
def validBound : Nat → Nat
  | 0 => 1
  | n + 1 => 10 * validBound n + 10 ^ n

/-! ## The validator -/

theorem loop_sep_pos (r : List Nat) (sep : Nat) (h : 0 < sep) :
    checkForCharacters.loop r sep = true ↔ ∀ b ∈ r, 48 ≤ b ∧ b ≤ 57 := by
  induction r with
  | nil => simp [checkForCharacters.loop]
  | cons b rest ih =>
    by_cases hd : 48 ≤ b ∧ b ≤ 57
    · simp [checkForCharacters.loop, hd, ih]
    · by_cases h46 : b = 46
      · subst h46
        simp [checkForCharacters.loop, h]
      · simp [checkForCharacters.loop, h46, hd]

theorem loop_sep_zero (r : List Nat) :
    checkForCharacters.loop r 0 = true ↔
      (∀ b ∈ r, (48 ≤ b ∧ b ≤ 57) ∨ b = 46) ∧ r.count 46 ≤ 1 := by
  induction r with
  | nil => simp [checkForCharacters.loop]
  | cons b rest ih =>
    by_cases hd : 48 ≤ b ∧ b ≤ 57
    · have hne : b ≠ 46 := by omega
      have hne2 : ¬ (46 = b) := fun h => hne h.symm
      simp [checkForCharacters.loop, hd, ih, List.count_cons, hne, hne2]
    · by_cases h46 : b = 46
      · subst h46
        simp only [checkForCharacters.loop]
        simp [loop_sep_pos]
        constructor
        · intro h
          refine ⟨fun b hb => Or.inl (h b hb), ?_⟩
          rw [List.count_eq_zero]
          intro hmem
          have := h 46 hmem
          omega
        · rintro ⟨h1, h2⟩ b hb
          rcases h1 b hb with h | h
          · exact h
          · subst h
            exact absurd hb (List.count_eq_zero.mp h2)
      · simp [checkForCharacters.loop, h46, hd]

/-! ## There are at most 1900000000 valid keys -/

theorem card_digitStrings (n : Nat) : (digitStrings n).card ≤ 10 ^ n := by
  induction n with
  | zero => simp [digitStrings]
  | succ n ih =>
    calc (digitStrings (n + 1)).card
        ≤ (Finset.Icc 48 57 ×ˢ digitStrings n).card := Finset.card_image_le
      _ = 10 * (digitStrings n).card := by simp [Finset.card_product]
      _ ≤ 10 * 10 ^ n := Nat.mul_le_mul_left _ ih
      _ = 10 ^ (n + 1) := by ring

theorem card_validStrings (n : Nat) : (validStrings n).card ≤ validBound n := by
  induction n with
  | zero => simp [validStrings, validBound]
  | succ n ih =>
    have h1 : ((Finset.Icc 48 57 ×ˢ validStrings n).image (fun p => p.1 :: p.2)).card
        ≤ 10 * validBound n :=
      calc _ ≤ (Finset.Icc 48 57 ×ˢ validStrings n).card := Finset.card_image_le
        _ = 10 * (validStrings n).card := by simp [Finset.card_product]
        _ ≤ 10 * validBound n := Nat.mul_le_mul_left _ ih
    have h2 : ((digitStrings n).image (fun t => 46 :: t)).card ≤ 10 ^ n :=
      le_trans Finset.card_image_le (card_digitStrings n)
    calc (validStrings (n + 1)).card
        ≤ _ + _ := Finset.card_union_le _ _
      _ ≤ 10 * validBound n + 10 ^ n := Nat.add_le_add h1 h2

theorem mem_digitStrings (r : List Nat) (h : ∀ b ∈ r, 48 ≤ b ∧ b ≤ 57) :
    r ∈ digitStrings r.length := by
  induction r with
  | nil => simp [digitStrings]
  | cons b rest ih =>
    simp only [digitStrings, List.length_cons, Finset.mem_image, Finset.mem_product,
      Finset.mem_Icc, Prod.exists]
    exact ⟨b, rest, ⟨h b (List.mem_cons_self _ _),
      ih (fun x hx => h x (List.mem_cons_of_mem _ hx))⟩, rfl⟩

theorem mem_validStrings (r : List Nat) (h : checkForCharacters r = true) :
    r ∈ validStrings r.length := by
  unfold checkForCharacters at h
  induction r with
  | nil => simp [validStrings]
  | cons b rest ih =>
    simp only [validStrings, List.length_cons, Finset.mem_union, Finset.mem_image,
      Finset.mem_product, Finset.mem_Icc, Prod.exists]
    by_cases hd : 48 ≤ b ∧ b ≤ 57
    · left
      simp only [checkForCharacters.loop, hd, decide_True, Bool.and_self, ge_iff_le,
        if_true] at h
      exact ⟨b, rest, ⟨hd, ih h⟩, rfl⟩
    · right
      by_cases h46 : b = 46
      · subst h46
        simp [checkForCharacters.loop] at h
        exact ⟨rest, mem_digitStrings rest ((loop_sep_pos rest 1 Nat.one_pos).mp h), rfl⟩
      · simp [checkForCharacters.loop, h46, hd] at h

theorem card_valid_keys (S : Finset (List Nat))
    (h : ∀ k ∈ S, k.length = 9 ∧ checkForCharacters k = true) : S.card ≤ 1900000000 := by
  have hsub : S ⊆ validStrings 9 := by
    intro k hk
    have := mem_validStrings k (h k hk).2
    rwa [(h k hk).1] at this
  calc S.card ≤ (validStrings 9).card := Finset.card_le_card hsub
    _ ≤ validBound 9 := card_validStrings 9
    _ = 1900000000 := by decide

/-! ## One read -/

theorem wrapInt32_of_range (x : Int) (h1 : -2147483648 ≤ x) (h2 : x ≤ 2147483647) :
    wrapInt32 x = x := by
  unfold wrapInt32; omega

theorem wrapInt32_range (x : Int) :
    -2147483648 ≤ wrapInt32 x ∧ wrapInt32 x ≤ 2147483647 := by
  unfold wrapInt32; omega

/-- The counters and the store after `wgDone`. -/
theorem wgDone_data (s : Server) :
    s.wgDone.duplicateNums = s.duplicateNums ∧ s.wgDone.new = s.new ∧
    s.wgDone.duplicates = s.duplicates ∧ s.wgDone.total = s.total ∧
    s.wgDone.quit = s.quit ∧ s.wgDone.logged = s.logged := by
  unfold Server.wgDone
  split_ifs <;> simp

theorem stop_data (s : Server) :
    s.stop.duplicateNums = s.duplicateNums ∧ s.stop.new = s.new ∧
    s.stop.duplicates = s.duplicates ∧ s.stop.total = s.total ∧
    s.stop.logged = s.logged := by
  unfold Server.stop
  split_ifs <;> simp

theorem accept_data (s : Server) :
    s.accept.duplicateNums = s.duplicateNums ∧ s.accept.new = s.new ∧
    s.accept.duplicates = s.duplicates ∧ s.accept.total = s.total ∧
    s.accept.quit = s.quit := by
  unfold Server.accept Server.wgAdd
  split_ifs <;> simp

/-- A 10-byte read whose first 9 bytes are valid and not yet stored. -/
theorem handleRead_fresh (s : Server) (c : Conn) (f : List Nat) (hlen : f.length = 10)
    (hv : checkForCharacters (f.take 9) = true) (hnew : f.take 9 ∉ s.duplicateNums) :
    handleRead s c (.ok f) =
      ⟨{ s with duplicateNums := insert (f.take 9) s.duplicateNums,
                logged := s.logged ++ [TrimLeft (f.take 9) (ascii "0") ++ ascii "\n"],
                new := counter.inc s.new, total := counter.inc s.total },
       c.Write (ascii "message received: " ++ TrimLeft (f.take 9) (ascii "0") ++ ascii "\n"),
       .looping⟩ := by
  simp [handleRead, hlen, hv, hnew]

/-- A 10-byte read whose first 9 bytes are valid and already stored. -/
theorem handleRead_seen (s : Server) (c : Conn) (f : List Nat) (hlen : f.length = 10)
    (hv : checkForCharacters (f.take 9) = true) (hold : f.take 9 ∈ s.duplicateNums) :
    handleRead s c (.ok f) =
      ⟨{ s with duplicates := counter.inc s.duplicates }, c, .looping⟩ := by
  simp [handleRead, hlen, hv, hold]

/-- A 10-byte read whose first 9 bytes are not valid. -/
theorem handleRead_invalid (s : Server) (c : Conn) (f : List Nat) (hlen : f.length = 10)
    (hv : checkForCharacters (f.take 9) = false) :
    handleRead s c (.ok f) =
      if checkForTerminate (f.take 9) = true then
        (if s.wgDone.panicked = true then ⟨s.wgDone, c.Close, .panicked⟩
          else ⟨s.wgDone.stop, c.Close, s.wgDone.stopStatus⟩)
      else doneAndReturn s c.Close := by
  simp only [handleRead, hlen, hv]
  split_ifs <;> simp_all

theorem stopStatus_ne_looping (s : Server) : s.stopStatus ≠ .looping := by
  unfold Server.stopStatus
  split_ifs <;> simp

/-- The statements `s.wg.Done(); return` leave store and counters alone. -/
theorem doneAndReturn_data (s : Server) (c : Conn) :
    (doneAndReturn s c).server = s.wgDone ∧ (doneAndReturn s c).conn = c ∧
    (doneAndReturn s c).status ≠ .looping ∧
    (s.wgDone.panicked = false → (doneAndReturn s c).status = .returned) := by
  refine ⟨rfl, rfl, ?_, ?_⟩
  · unfold doneAndReturn
    dsimp only
    split_ifs <;> simp
  · intro h
    simp [doneAndReturn, h]

/-- Every read that does not carry a valid frame leaves store and counters alone. -/
theorem handleRead_reject (s : Server) (c : Conn) (r : ReadResult)
    (h : ∀ f, r = .ok f → f.length = 10 → checkForCharacters (f.take 9) = false) :
    let st := handleRead s c r
    st.server.duplicateNums = s.duplicateNums ∧ st.server.new = s.new ∧
    st.server.duplicates = s.duplicates ∧ st.server.total = s.total ∧
    st.conn = c.Close ∧ st.status ≠ .looping := by
  have hw := wgDone_data s
  have hs := stop_data s.wgDone
  have hd := doneAndReturn_data s c.Close
  have hdone : (doneAndReturn s c.Close).server.duplicateNums = s.duplicateNums ∧
      (doneAndReturn s c.Close).server.new = s.new ∧
      (doneAndReturn s c.Close).server.duplicates = s.duplicates ∧
      (doneAndReturn s c.Close).server.total = s.total ∧
      (doneAndReturn s c.Close).conn = c.Close ∧
      (doneAndReturn s c.Close).status ≠ .looping := by
    rw [hd.1]
    exact ⟨hw.1, hw.2.1, hw.2.2.1, hw.2.2.2.1, hd.2.1, hd.2.2.1⟩
  cases r with
  | err => exact hdone
  | ok f =>
    by_cases hlen : f.length = 10
    · show _ ∧ _ ∧ _ ∧ _ ∧ _ ∧ _
      rw [handleRead_invalid s c f hlen (h f rfl hlen)]
      split_ifs
      · exact ⟨hw.1, hw.2.1, hw.2.2.1, hw.2.2.2.1, rfl, by simp⟩
      · exact ⟨by rw [hs.1, hw.1], by rw [hs.2.1, hw.2.1], by rw [hs.2.2.1, hw.2.2.1],
          by rw [hs.2.2.2.1, hw.2.2.2.1], rfl, stopStatus_ne_looping _⟩
      · exact hdone
    · have e : handleRead s c (.ok f) = doneAndReturn s c.Close := by
        simp [handleRead, hlen]
      show _ ∧ _ ∧ _ ∧ _ ∧ _ ∧ _
      rw [e]
      exact hdone

/-! ## The invariant -/

theorem inv_of_data (s t : Server) (hi : Inv s)
    (h : t.duplicateNums = s.duplicateNums ∧ t.new = s.new ∧
      t.duplicates = s.duplicates ∧ t.total = s.total) : Inv t := by
  obtain ⟨h1, h2, h3, h4⟩ := h
  exact ⟨by rw [h1]; exact hi.keys, by rw [h1, h4]; exact hi.total_eq,
    by rw [h2]; exact hi.new_nonneg, by rw [h2, h4]; exact hi.new_le,
    by rw [h3]; exact hi.dup_lo, by rw [h3]; exact hi.dup_hi⟩

theorem inv_NewServer : Inv NewServer := by
  constructor <;> simp [NewServer]

/-- With the invariant, a new valid key leaves room in `new` and `total`. -/
theorem inv_room (s : Server) (hi : Inv s) (p : List Nat) (hlen : p.length = 9)
    (hv : checkForCharacters p = true) (hnew : p ∉ s.duplicateNums) :
    (s.total : Int) + 1 ≤ 1900000000 := by
  have hk : ∀ k ∈ insert p s.duplicateNums, k.length = 9 ∧ checkForCharacters k = true := by
    intro k hk
    rcases Finset.mem_insert.mp hk with h | h
    · subst h; exact ⟨hlen, hv⟩
    · exact hi.keys k h
  have hc := card_valid_keys _ hk
  rw [Finset.card_insert_of_not_mem hnew] at hc
  rw [hi.total_eq]
  exact_mod_cast hc

theorem take9_length (f : List Nat) (hlen : f.length = 10) : (f.take 9).length = 9 := by
  simp [hlen]

theorem inv_handleRead (s : Server) (c : Conn) (r : ReadResult) (hi : Inv s) :
    Inv (handleRead s c r).server := by
  by_cases hvalid : ∃ f, r = .ok f ∧ f.length = 10 ∧ checkForCharacters (f.take 9) = true
  · obtain ⟨f, rfl, hlen, hv⟩ := hvalid
    by_cases hmem : f.take 9 ∈ s.duplicateNums
    · rw [handleRead_seen s c f hlen hv hmem]
      have hr := wrapInt32_range (s.duplicates + 1)
      exact ⟨hi.keys, hi.total_eq, hi.new_nonneg, hi.new_le, hr.1, hr.2⟩
    · rw [handleRead_fresh s c f hlen hv hmem]
      have hroom := inv_room s hi _ (take9_length f hlen) hv hmem
      have h0 := hi.new_nonneg
      have h1 := hi.new_le
      have ht : counter.inc s.total = s.total + 1 :=
        wrapInt32_of_range _ (by omega) (by omega)
      have hn : counter.inc s.new = s.new + 1 :=
        wrapInt32_of_range _ (by omega) (by omega)
      refine ⟨?_, ?_, ?_, ?_, hi.dup_lo, hi.dup_hi⟩
      · intro k hk
        rcases Finset.mem_insert.mp hk with h | h
        · subst h; exact ⟨take9_length f hlen, hv⟩
        · exact hi.keys k h
      · show counter.inc s.total = _
        rw [ht, Finset.card_insert_of_not_mem hmem, hi.total_eq]
        push_cast; rfl
      · show 0 ≤ counter.inc s.new
        rw [hn]; omega
      · show counter.inc s.new ≤ counter.inc s.total
        rw [hn, ht]; omega
  · have h := handleRead_reject s c r (by
      intro f hf hlen
      by_contra hc
      exact hvalid ⟨f, hf, hlen, by simpa using hc⟩)
    exact inv_of_data s _ hi ⟨h.1, h.2.1, h.2.2.1, h.2.2.2.1⟩

theorem inv_step (s : Server) (e : Event) (hi : Inv s) : Inv (s.step e) := by
  cases e with
  | accept =>
    have h := accept_data s
    exact inv_of_data s _ hi ⟨h.1, h.2.1, h.2.2.1, h.2.2.2.1⟩
  | loop c r =>
    show Inv (iteration s c r).server
    unfold iteration
    split_ifs
    · have h := wgDone_data s
      exact inv_of_data s _ hi ⟨h.1, h.2.1, h.2.2.1, h.2.2.2.1⟩
    · exact inv_handleRead s c r hi
  | read c r => exact inv_handleRead s c r hi
  | tick =>
    refine ⟨hi.keys, hi.total_eq, ?_, ?_, ?_, ?_⟩
    · show (0 : Int) ≤ 0
      exact le_refl _
    · show (0 : Int) ≤ s.total
      exact le_trans hi.new_nonneg hi.new_le
    · show (-2147483648 : Int) ≤ 0
      decide
    · show (0 : Int) ≤ 2147483647
      decide
  | stop =>
    have h := stop_data s
    exact inv_of_data s _ hi ⟨h.1, h.2.1, h.2.2.1, h.2.2.2.1⟩

theorem inv_exec (evs : List Event) (s : Server) (hi : Inv s) : Inv (exec s evs) := by
  induction evs generalizing s with
  | nil => exact hi
  | cons e es ih => exact ih (s.step e) (inv_step s e hi)

/-- C9. Starting from a freshly created server, after every finite sequence of
events (accepts, loop iterations and completed reads of any sessions with any
frame or read error, reporting ticks, outside calls of `stop`), `total` equals
the number of keys in the Dedup Store. -/
theorem total_eq_card_after_events (evs : List Event) :
    (exec NewServer evs).total = ((exec NewServer evs).duplicateNums.card : Int) :=
  (inv_exec evs NewServer inv_NewServer).total_eq

/-! ## First submission -/

theorem reachable_inv (s : Server) (h : Reachable s) : Inv s := by
  obtain ⟨evs, rfl⟩ := h
  exact inv_exec evs NewServer inv_NewServer

/-- The list `TrimLeft p "0"` is what is left of `p` after its leading `'0'` bytes. -/
theorem TrimLeft_zero (p : List Nat) :
    ∃ z, p = List.replicate z 48 ++ TrimLeft p (ascii "0") ∧
      (TrimLeft p (ascii "0")).head? ≠ some 48 := by
  induction p with
  | nil => exact ⟨0, by simp [TrimLeft], by simp [TrimLeft]⟩
  | cons b rest ih =>
    by_cases hb : b = 48
    · subst hb
      obtain ⟨z, hz, hh⟩ := ih
      have ht : TrimLeft (48 :: rest) (ascii "0") = TrimLeft rest (ascii "0") := by
        simp [TrimLeft, ascii, List.dropWhile]
      refine ⟨z + 1, ?_, by rw [ht]; exact hh⟩
      rw [ht, List.replicate_succ, List.cons_append, ← hz]
    · have ht : TrimLeft (b :: rest) (ascii "0") = b :: rest := by
        simp [TrimLeft, ascii, List.dropWhile, hb]
      refine ⟨0, by rw [ht]; simp, ?_⟩
      rw [ht]
      simpa using hb

theorem iteration_open (s : Server) (c : Conn) (r : ReadResult) (hquit : s.quit = false) :
    iteration s c r = handleRead s c r := by
  simp [iteration, hquit]

theorem take9_frame (p : List Nat) (hlen : p.length = 9) (last : List Nat) :
    (p ++ last).take 9 = p := by
  rw [← hlen]; simp

/-- C1. For every valid 9-byte payload `p` that is not yet in the Dedup Store of
a server reached from a fresh one, a session whose loop iteration (Shutdown
Signal not fired) reads the frame `p ++ "\n"` writes exactly one response,
`"message received: " ++ t ++ "\n"` where `t` is `p` without its leading `'0'`
bytes, inserts the raw `p` into the store, increments `new` and `total` by 1,
leaves `duplicate` unchanged and stays active (its loop goes on, socket not
closed by the step).  In particular `"000000001"` and `"000000011"`, sent one after the
other on a fresh connection of a fresh server, become two distinct keys and are
echoed as `"1"` and `"11"`. -/
theorem first_submission_acknowledged (s : Server) (c : Conn) (p : List Nat)
    (hreach : Reachable s) (hlen : p.length = 9) (hv : checkForCharacters p = true)
    (hnew : p ∉ s.duplicateNums) (hquit : s.quit = false) :
    (∃ z t, p = List.replicate z 48 ++ t ∧ t.head? ≠ some 48 ∧
      (iteration s c (.ok (p ++ ascii "\n"))).conn.written =
        c.written ++ [ascii "message received: " ++ t ++ ascii "\n"]) ∧
    (iteration s c (.ok (p ++ ascii "\n"))).server.duplicateNums = insert p s.duplicateNums ∧
    (iteration s c (.ok (p ++ ascii "\n"))).server.new = s.new + 1 ∧
    (iteration s c (.ok (p ++ ascii "\n"))).server.total = s.total + 1 ∧
    (iteration s c (.ok (p ++ ascii "\n"))).server.duplicates = s.duplicates ∧
    (iteration s c (.ok (p ++ ascii "\n"))).status = .looping ∧
    (iteration s c (.ok (p ++ ascii "\n"))).conn.closed = c.closed ∧
    (handleConnections NewServer Conn.fresh
        [.ok (ascii "000000001\n"), .ok (ascii "000000011\n")]).server.duplicateNums
      = {ascii "000000001", ascii "000000011"} ∧
    ascii "000000001" ≠ ascii "000000011" ∧
    (handleConnections NewServer Conn.fresh
        [.ok (ascii "000000001\n"), .ok (ascii "000000011\n")]).conn.written
      = [ascii "message received: 1\n", ascii "message received: 11\n"] := by
  have hi := reachable_inv s hreach
  have hl : (p ++ ascii "\n").length = 10 := by simp [hlen, ascii]
  have ht : (p ++ ascii "\n").take 9 = p := take9_frame p hlen _
  have hroom := inv_room s hi p hlen hv hnew
  have h0 := hi.new_nonneg
  have h1 := hi.new_le
  rw [iteration_open s c _ hquit,
    handleRead_fresh s c _ hl (by rw [ht]; exact hv) (by rw [ht]; exact hnew), ht]
  obtain ⟨z, hz, hh⟩ := TrimLeft_zero p
  refine ⟨⟨z, _, hz, hh, rfl⟩, rfl, ?_, ?_, rfl, rfl, rfl, by decide, by decide, by decide⟩
  · exact wrapInt32_of_range _ (by omega) (by omega)
  · exact wrapInt32_of_range _ (by omega) (by omega)

/-- C1 (witness). The payload `"000000001"` on a fresh server. -/
theorem first_submission_acknowledged_witness :
    (iteration NewServer Conn.fresh (.ok (ascii "000000001" ++ ascii "\n"))).server.total
      = NewServer.total + 1 :=
  (first_submission_acknowledged NewServer Conn.fresh (ascii "000000001") ⟨[], rfl⟩
    (by decide) (by decide) (by decide) (by decide)).2.2.2.1

/-! ## Repeated submission -/

theorem wrapInt32_add (x : Int) (m : Int) : wrapInt32 (wrapInt32 x + m) = wrapInt32 (x + m) := by
  unfold wrapInt32; omega

theorem inc_iterate (n : Nat) (d : Int) :
    counter.inc^[n + 1] d = wrapInt32 (d + ((n : Int) + 1)) := by
  induction n generalizing d with
  | zero => simp [counter.inc]
  | succ n ih =>
    rw [Function.iterate_succ_apply, ih, counter.inc, wrapInt32_add]
    congr 1
    push_cast
    ring

theorem submit_cons (s : Server) (f : List Nat) (c : Conn) (cs : List Conn) :
    submit s f (c :: cs) = submit (iteration s c (.ok f)).server f cs := rfl

/-- Submitting a frame whose payload is already stored only moves `duplicates`. -/
theorem submit_seen (cs : List Conn) (s : Server) (f : List Nat) (hlen : f.length = 10)
    (hv : checkForCharacters (f.take 9) = true) (hold : f.take 9 ∈ s.duplicateNums)
    (hquit : s.quit = false) :
    submit s f cs = { s with duplicates := counter.inc^[cs.length] s.duplicates } := by
  induction cs generalizing s with
  | nil => rfl
  | cons c cs ih =>
    rw [submit_cons, iteration_open s c _ hquit, handleRead_seen s c f hlen hv hold]
    exact ih { s with duplicates := counter.inc s.duplicates } hold hquit

/-- Submitting a frame with a new valid payload: the first submission stores it,
the others are duplicates. -/
theorem submit_fresh (s : Server) (f : List Nat) (c : Conn) (cs : List Conn)
    (hlen : f.length = 10) (hv : checkForCharacters (f.take 9) = true)
    (hnew : f.take 9 ∉ s.duplicateNums) (hquit : s.quit = false) :
    submit s f (c :: cs) =
      { s with duplicateNums := insert (f.take 9) s.duplicateNums,
               logged := s.logged ++ [TrimLeft (f.take 9) (ascii "0") ++ ascii "\n"],
               new := counter.inc s.new, total := counter.inc s.total,
               duplicates := counter.inc^[cs.length] s.duplicates } := by
  rw [submit_cons, iteration_open s c _ hquit, handleRead_fresh s c f hlen hv hnew]
  exact submit_seen cs
    { s with duplicateNums := insert (f.take 9) s.duplicateNums,
             logged := s.logged ++ [TrimLeft (f.take 9) (ascii "0") ++ ascii "\n"],
             new := counter.inc s.new, total := counter.inc s.total }
    f hlen hv (Finset.mem_insert_self _ _) hquit

/-- The `duplicates` counter after `n + 2` submissions of a new valid payload. -/
theorem submit_fresh_duplicates (s : Server) (f : List Nat) (c : Conn) (n : Nat)
    (hlen : f.length = 10) (hv : checkForCharacters (f.take 9) = true)
    (hnew : f.take 9 ∉ s.duplicateNums) (hquit : s.quit = false) :
    (submit s f (List.replicate (n + 2) c)).duplicates
      = wrapInt32 (s.duplicates + ((n : Int) + 1)) := by
  rw [List.replicate_succ, submit_fresh s f c _ hlen hv hnew hquit]
  simp only [List.length_replicate]
  exact inc_iterate n s.duplicates

/-- C2 (counterexample). On a fresh server with the reporter off, the valid
payload `"123456789"` submitted `2^31 + 1` times leaves `duplicates` at `-2^31`,
not at `k - 1 = 2^31`: the `int32` counter has wrapped around. -/
theorem repeated_submission_wraps :
    checkForCharacters (ascii "123456789") = true ∧
    ascii "123456789" ∉ NewServer.duplicateNums ∧
    (submit NewServer (ascii "123456789\n")
      (List.replicate 2147483649 Conn.fresh)).duplicates = -2147483648 ∧
    (submit NewServer (ascii "123456789\n")
      (List.replicate 2147483649 Conn.fresh)).duplicates
        ≠ NewServer.duplicates + (2147483649 - 1) := by
  have h : (submit NewServer (ascii "123456789\n")
      (List.replicate 2147483649 Conn.fresh)).duplicates = -2147483648 := by
    have e := submit_fresh_duplicates NewServer (ascii "123456789\n") Conn.fresh 2147483647
      (by decide) (by decide) (by decide) (by decide)
    rw [show (2147483647 : Nat) + 2 = 2147483649 from rfl] at e
    rw [e]
    decide
  refine ⟨by decide, by decide, h, ?_⟩
  rw [h]
  decide

/-- C2 (amended). For every valid 9-byte payload `p` and every `k ≥ 1`, starting
from a server reached from a fresh one whose Dedup Store does not contain `p`,
whose Shutdown Signal is not fired and whose `duplicates` counter `d` satisfies
`d + (k - 1) ≤ 2^31 - 1`, processing the frame `p ++ "\n"` `k` times in sequence
(on connections in any states) increases `new` by exactly 1, `total` by exactly
1 and `duplicates` by exactly `k - 1`; afterwards the store is the old store
with the single key `p` added (on a fresh server: store size 1, `total` 1,
`new` 1, `duplicates` `k - 1`). -/
theorem repeated_submission_counts (s : Server) (p : List Nat) (k : Nat) (cs : List Conn)
    (hreach : Reachable s) (hlen : p.length = 9) (hv : checkForCharacters p = true)
    (hnew : p ∉ s.duplicateNums) (hquit : s.quit = false)
    (hk : 1 ≤ k) (hcs : cs.length = k)
    (hroom : s.duplicates + ((k : Int) - 1) ≤ 2147483647) :
    (submit s (p ++ ascii "\n") cs).new = s.new + 1 ∧
    (submit s (p ++ ascii "\n") cs).total = s.total + 1 ∧
    (submit s (p ++ ascii "\n") cs).duplicates = s.duplicates + ((k : Int) - 1) ∧
    (submit s (p ++ ascii "\n") cs).duplicateNums = insert p s.duplicateNums ∧
    (submit s (p ++ ascii "\n") cs).duplicateNums.card = s.duplicateNums.card + 1 ∧
    (s = NewServer →
      (submit s (p ++ ascii "\n") cs).duplicateNums.card = 1 ∧
      (submit s (p ++ ascii "\n") cs).total = 1 ∧
      (submit s (p ++ ascii "\n") cs).new = 1 ∧
      (submit s (p ++ ascii "\n") cs).duplicates = (k : Int) - 1) := by
  have hi := reachable_inv s hreach
  have hl : (p ++ ascii "\n").length = 10 := by simp [hlen, ascii]
  have ht : (p ++ ascii "\n").take 9 = p := take9_frame p hlen _
  obtain ⟨c, rest, rfl⟩ : ∃ c rest, cs = c :: rest := by
    cases cs with
    | nil => simp at hcs; omega
    | cons c rest => exact ⟨c, rest, rfl⟩
  have hrest : (rest.length : Int) = (k : Int) - 1 := by
    simp at hcs; omega
  rw [submit_fresh s _ c rest hl (by rw [ht]; exact hv) (by rw [ht]; exact hnew) hquit, ht]
  have hbound := inv_room s hi p hlen hv hnew
  have h0 := hi.new_nonneg
  have h1 := hi.new_le
  have hd0 := hi.dup_lo
  have hn : counter.inc s.new = s.new + 1 := wrapInt32_of_range _ (by omega) (by omega)
  have htot : counter.inc s.total = s.total + 1 := wrapInt32_of_range _ (by omega) (by omega)
  have hdup : counter.inc^[rest.length] s.duplicates = s.duplicates + ((k : Int) - 1) := by
    cases hr : rest.length with
    | zero =>
      rw [hr] at hrest
      simp at hrest ⊢
      omega
    | succ n =>
      rw [hr] at hrest
      push_cast at hrest
      rw [inc_iterate, ← hrest]
      exact wrapInt32_of_range _ (by omega) (by omega)
  have hcard : (insert p s.duplicateNums).card = s.duplicateNums.card + 1 :=
    Finset.card_insert_of_not_mem hnew
  refine ⟨hn, htot, hdup, rfl, hcard, ?_⟩
  intro hs
  subst hs
  refine ⟨by simp [NewServer], ?_, ?_, ?_⟩
  · show counter.inc NewServer.total = 1
    decide
  · show counter.inc NewServer.new = 1
    decide
  · show counter.inc^[rest.length] NewServer.duplicates = _
    rw [hdup]
    simp [NewServer]

/-- C2 (witness). The payload `"123456789"` three times on a fresh server, as in
the test of the duplicate counters. -/
theorem repeated_submission_counts_witness :
    (submit NewServer (ascii "123456789" ++ ascii "\n")
      [Conn.fresh, Conn.fresh, Conn.fresh]).duplicates = NewServer.duplicates + ((3 : Nat) - 1 : Int) :=
  (repeated_submission_counts NewServer (ascii "123456789") 3 [Conn.fresh, Conn.fresh, Conn.fresh]
    ⟨[], rfl⟩ (by decide) (by decide) (by decide) (by decide) (by decide) (by decide)
    (by decide)).2.2.1

/-! ## Rejected frames, shutdown, reporting -/

/-- C3. For every byte sequence `r`, `checkForCharacters r` returns true if and
only if every byte of `r` is an ASCII digit (48..57) or the byte `'.'` (46) and
`'.'` occurs at most once in `r`; so `"12345.789"` is accepted and
`"1.3.5.789"` is rejected. -/
theorem checkForCharacters_iff :
    (∀ r : List Nat, checkForCharacters r = true ↔
      (∀ b ∈ r, (48 ≤ b ∧ b ≤ 57) ∨ b = 46) ∧ r.count 46 ≤ 1) ∧
    checkForCharacters (ascii "12345.789") = true ∧
    checkForCharacters (ascii "1.3.5.789") = false :=
  ⟨fun r => loop_sep_zero r, by decide, by decide⟩

/-- C6. For every server state, after one reporting tick (`createReport`) the
counters `new` and `duplicates` are both 0, `total` has the same value as before
the tick and the Dedup Store is unchanged; the three values emitted by the tick
are the values of `new`, `duplicates` and `total` before the reset. -/
theorem createReport_resets (s : Server) :
    (createReport s).2.new = 0 ∧ (createReport s).2.duplicates = 0 ∧
    (createReport s).2.total = s.total ∧
    (createReport s).2.duplicateNums = s.duplicateNums ∧
    (createReport s).1.new = s.new ∧ (createReport s).1.duplicates = s.duplicates ∧
    (createReport s).1.total = s.total :=
  ⟨rfl, rfl, rfl, rfl, rfl, rfl, rfl⟩

/-! ## Terminator, repeated stop, closing of the socket -/

/-- C7 (counterexample). The ten digits `"1234567890"` are a 10-byte read whose
10th byte is not `'\n'` and whose first 9 bytes pass validation; a session of a
fresh server does not close the connection: it stores `"123456789"`, answers
`"message received: 123456789\n"`, increments `new` and `total` and goes on. -/
theorem missing_terminator_accepted :
    (ascii "1234567890").length = 10 ∧
    (ascii "1234567890").getLast? ≠ (ascii "\n").head? ∧
    checkForCharacters ((ascii "1234567890").take 9) = true ∧
    (iteration NewServer Conn.fresh (.ok (ascii "1234567890"))).conn.closed = false ∧
    (iteration NewServer Conn.fresh (.ok (ascii "1234567890"))).status = .looping ∧
    (iteration NewServer Conn.fresh (.ok (ascii "1234567890"))).conn.written
      = [ascii "message received: 123456789\n"] ∧
    (iteration NewServer Conn.fresh (.ok (ascii "1234567890"))).server.duplicateNums
      = {ascii "123456789"} ∧
    (iteration NewServer Conn.fresh (.ok (ascii "1234567890"))).server.new = 1 ∧
    (iteration NewServer Conn.fresh (.ok (ascii "1234567890"))).server.total = 1 := by
  decide

/-- C7 (amended). A frame is read as 10 bytes of which only the first 9 are
inspected: for every 10-byte read, whatever its 10th byte, the session does
exactly what it does for the same 9 bytes followed by `'\n'`.  So a read with a
missing terminator closes the connection without a response and leaves the
Dedup Store and the three counters unchanged when its first 9 bytes fail
validation, and is processed like a terminated frame when they pass it. -/
theorem tenth_byte_not_inspected (s : Server) (c : Conn) (f : List Nat)
    (hlen : f.length = 10) :
    handleRead s c (.ok f) = handleRead s c (.ok (f.take 9 ++ ascii "\n")) ∧
    iteration s c (.ok f) = iteration s c (.ok (f.take 9 ++ ascii "\n")) ∧
    (checkForCharacters (f.take 9) = false →
      (handleRead s c (.ok f)).conn.closed = true ∧
      (handleRead s c (.ok f)).status ≠ .looping ∧
      (handleRead s c (.ok f)).conn.written = c.written ∧
      (handleRead s c (.ok f)).server.duplicateNums = s.duplicateNums ∧
      (handleRead s c (.ok f)).server.new = s.new ∧
      (handleRead s c (.ok f)).server.duplicates = s.duplicates ∧
      (handleRead s c (.ok f)).server.total = s.total) := by
  have hl : (f.take 9 ++ ascii "\n").length = 10 := by simp [hlen, ascii]
  have ht : (f.take 9 ++ ascii "\n").take 9 = f.take 9 :=
    take9_frame _ (take9_length f hlen) _
  have hr : handleRead s c (.ok f) = handleRead s c (.ok (f.take 9 ++ ascii "\n")) := by
    simp only [handleRead, hlen, hl, ht]
  refine ⟨hr, by unfold iteration; rw [hr], ?_⟩
  intro hbad
  have h := handleRead_reject s c (.ok f) (by
    intro g hg _
    cases hg
    exact hbad)
  obtain ⟨h1, h2, h3, h4, h5, h6⟩ := h
  exact ⟨by rw [h5]; rfl, h6, by rw [h5]; rfl, h1, h2, h3, h4⟩

/-- C7 (witness). The ten digits `"1234567890"` on a fresh server. -/
theorem tenth_byte_not_inspected_witness :
    handleRead NewServer Conn.fresh (.ok (ascii "1234567890"))
      = handleRead NewServer Conn.fresh (.ok ((ascii "1234567890").take 9 ++ ascii "\n")) :=
  (tenth_byte_not_inspected NewServer Conn.fresh (ascii "1234567890") (by decide)).1

/-- C8 (counterexample). On a fresh server the first `stop()` fires the signal
without a panic, the second `stop()` panics (close of a closed channel), and
`stop(); stop()` does not end in the state that a single `stop()` gives. -/
theorem second_stop_panics :
    NewServer.stop.quit = true ∧ NewServer.stop.panicked = false ∧
    NewServer.stop.stop.panicked = true ∧ NewServer.stop.stop ≠ NewServer.stop := by
  decide

/-- C8 (amended). `stop()` is safe once: on a live server whose Shutdown Signal
is not fired it fires the signal without panicking; a further `stop()` finds
the channel closed and panics, the signal staying fired.  In general every
`stop()` on a server whose signal is already fired panics. -/
theorem stop_once_then_panics (s : Server) (hquit : s.quit = false)
    (halive : s.panicked = false) :
    s.stop.quit = true ∧ s.stop.panicked = false ∧
    s.stop.stop.quit = true ∧ s.stop.stop.panicked = true ∧
    (∀ t : Server, t.quit = true → t.stop.panicked = true ∧ t.stop.quit = true) := by
  have hfired : ∀ t : Server, t.quit = true → t.stop.panicked = true ∧ t.stop.quit = true := by
    intro t ht
    simp [Server.stop, ht]
  have h1 : s.stop.quit = true := by
    unfold Server.stop
    rw [if_neg (by simp [hquit])]
    split_ifs <;> rfl
  have h2 : s.stop.panicked = false := by
    unfold Server.stop
    rw [if_neg (by simp [hquit])]
    split_ifs <;> exact halive
  exact ⟨h1, h2, (hfired _ h1).2, (hfired _ h1).1, hfired⟩

/-- C8 (witness). Two calls of `stop` on a fresh server. -/
theorem stop_once_then_panics_witness :
    NewServer.stop.quit = true ∧ NewServer.stop.stop.panicked = true :=
  ⟨(stop_once_then_panics NewServer (by decide) (by decide)).1,
   (stop_once_then_panics NewServer (by decide) (by decide)).2.2.2.1⟩

/-- Every way out of the loop in the `default:` branch (read error, byte count
other than 10, invalid payload, `"terminate"`) closes the socket first. -/
theorem handleRead_return_closes (s : Server) (c : Conn) (r : ReadResult)
    (h : (handleRead s c r).status ≠ .looping) : (handleRead s c r).conn.closed = true := by
  by_cases hvalid : ∃ f, r = .ok f ∧ f.length = 10 ∧ checkForCharacters (f.take 9) = true
  · obtain ⟨f, rfl, hlen, hv⟩ := hvalid
    by_cases hmem : f.take 9 ∈ s.duplicateNums
    · rw [handleRead_seen s c f hlen hv hmem] at h
      exact absurd h (by simp)
    · rw [handleRead_fresh s c f hlen hv hmem] at h
      exact absurd h (by simp)
  · have h := handleRead_reject s c r (by
      intro f hf hlen
      by_contra hc
      exact hvalid ⟨f, hf, hlen, by simpa using hc⟩)
    rw [h.2.2.2.2.1]
    rfl

/-- C10 (failing input). Two sessions are accepted and the first one reads
`"terminate\n"`, which fires the Shutdown Signal.  The second session, whose
socket is open, then sees the fired signal at the top of its loop:
`handleConnections` returns and the socket has not been closed. -/
theorem shutdown_exit_leaves_socket_open :
    (exec NewServer [.accept, .accept, .loop Conn.fresh (.ok (ascii "terminate\n"))]).quit
      = true ∧
    (handleConnections
      (exec NewServer [.accept, .accept, .loop Conn.fresh (.ok (ascii "terminate\n"))])
      Conn.fresh [.ok (ascii "123456789\n")]).status = .returned ∧
    (handleConnections
      (exec NewServer [.accept, .accept, .loop Conn.fresh (.ok (ascii "terminate\n"))])
      Conn.fresh [.ok (ascii "123456789\n")]).conn.closed = false ∧
    (handleConnections
      (exec NewServer [.accept, .accept, .loop Conn.fresh (.ok (ascii "terminate\n"))])
      Conn.fresh []).status = .returned ∧
    (handleConnections
      (exec NewServer [.accept, .accept, .loop Conn.fresh (.ok (ascii "terminate\n"))])
      Conn.fresh []).conn.closed = false := by
  decide

end NumberServer
